import Mathlib

/-!
Verification of the transcript-alignment core of the `shorts_maker` repository.

The embedding below models, faithfully to the Python source:
* `align_transcript_with_script` from `ShortsMaker/utils/audio_transcript.py`
  (windowed fuzzy alignment of recognizer segments against a reference script);
* `preprocess_audio_transcript`, and
  `process_audio_transcript_to_word_and_sentences_transcript` from
  `ShortsMaker/moviepy_create_video.py` (gap closing and word/sentence grouping);
* `_filter_word_transcript` from `ShortsMaker/shorts_maker.py`.

Timestamps (Python floats that are only copied, compared and subtracted) are
modelled as rationals.  The external fuzzy scorer (`rapidfuzz`) is modelled as
a parameter `score`; `extractOne` picks the first candidate attaining the
maximal score, as `rapidfuzz.process.extractOne` does.
-/

namespace ShortsMaker

/-- Python `str.split()`: split on whitespace runs, discarding empty pieces. -/
def pySplit (s : String) : List String :=
  ((s.data.splitOnP (fun c => c.isWhitespace)).map (fun l => String.mk l)).filter
    (fun t => t ≠ "")

/-- Python `sep.join(ts)`. -/
def pyJoin (sep : String) : List String → String
  | [] => ""
  | [t] => t
  | t :: ts => t ++ sep ++ pyJoin sep ts

/-- Python `str.strip()`: remove leading and trailing whitespace. -/
def pyStrip (s : String) : String :=
  String.mk (((s.data.dropWhile Char.isWhitespace).reverse.dropWhile Char.isWhitespace).reverse)

/-- Python list slice `l[:j]` for an `int` bound `j`: a nonnegative bound takes
the first `j` elements; a negative bound drops the last `-j` elements. -/
def pySliceTo (l : List String) (j : Int) : List String :=
  if 0 ≤ j then l.take j.toNat else l.take (l.length - (-j).toNat)

/-- A recognizer transcript segment: `{"text": ..., "start": ..., "end": ...}`. -/
structure Segment where
  text : String
  start : ℚ
  «end» : ℚ
  deriving DecidableEq, Repr, Inhabited

/-- `window_sizes = [i for i in range(6)]` in `align_transcript_with_script`. -/
def window_sizes : List Nat := List.range 6

/-- The `possible_windows` list built for one segment whose text has `n` tokens:
for each window size `w`, the windows `script_words[: n + w]` and
`script_words[: n - w]`, joined with single spaces, in generation order. -/
def possible_windows_for (script_words : List String) (n : Nat) : List String :=
  window_sizes.flatMap (fun w =>
    [pyJoin " " (pySliceTo script_words ((n : Int) + (w : Int))),
     pyJoin " " (pySliceTo script_words ((n : Int) - (w : Int)))])

/-- `rapidfuzz.process.extractOne`to the extent the aligner relies on it: among
the choices, return the first one attaining the maximal score against the
query (rapidfuzz returns the first-encountered best match). -/
def extractOne (score : String → String → ℚ) (query : String) :
    List String → String
  | [] => ""
  | c :: cs => cs.foldl (fun best x => if score query best < score query x then x else best) c

/-- One iteration of the loop of `align_transcript_with_script`: build the
candidate windows, pick the best match, consume `len(best_match.split())`
tokens from the front of `script_words` when the match is non-empty, and emit
the aligned segment. -/
def alignStep (score : String → String → ℚ) (script_words : List String)
    (entry : Segment) : Segment × List String :=
  let length_of_entry_text := (pySplit entry.text).length
  let possible_windows := possible_windows_for script_words length_of_entry_text
  let best_match := extractOne score entry.text possible_windows
  let script_words' :=
    if best_match ≠ "" then script_words.drop (pySplit best_match).length else script_words
  ({ text := if best_match ≠ "" then best_match else entry.text,
     start := entry.start, «end» := entry.«end» }, script_words')

/-- The full loop of `align_transcript_with_script`, also returning the final
remaining reference tokens (the Python code mutates `script_words` in place;
we pass the state explicitly). -/
def alignLoop (score : String → String → ℚ) :
    List Segment → List String → List Segment × List String
  | [], script_words => ([], script_words)
  | entry :: rest, script_words =>
    let step := alignStep score script_words entry
    let next := alignLoop score rest step.2
    (step.1 :: next.1, next.2)

/-- `align_transcript_with_script(transcript, script_string)` from
`ShortsMaker/utils/audio_transcript.py`, parameterized by the external fuzzy
scorer. -/
def align_transcript_with_script (score : String → String → ℚ)
    (transcript : List Segment) (script_string : String) : List Segment :=
  (alignLoop score transcript (pySplit script_string)).1

/-- A word-level transcript entry `{"word": ..., "start": ..., "end": ...}`.
The same shape is used for the input of the grouping pass and for the emitted
word-transcript entries (whose `word` field holds the cumulative sentence). -/
structure WordEntry where
  word : String
  start : ℚ
  «end» : ℚ
  deriving DecidableEq, Repr, Inhabited

/-- A sentence-level transcript entry `{"sentence": ..., "start": ..., "end": ...}`. -/
structure SentenceEntry where
  sentence : String
  start : ℚ
  «end» : ℚ
  deriving DecidableEq, Repr, Inhabited

/-- `MoviepyCreateVideo.PUNCTUATION_MARKS`. -/
def PUNCTUATION_MARKS : List Char := ['.', ';', ':', '!', '?', ',']

/-- `MoviepyCreateVideo.preprocess_audio_transcript`: for every entry except
the last, set its `end` to the `start` of the next entry. -/
def preprocess_audio_transcript : List WordEntry → List WordEntry
  | [] => []
  | [t] => [t]
  | t :: t' :: ts => { t with «end» := t'.start } :: preprocess_audio_transcript (t' :: ts)

/-- The mutable state of the loop in
`process_audio_transcript_to_word_and_sentences_transcript`. -/
structure GroupState where
  sentence_start : ℚ
  sentence_end : ℚ
  word_start : ℚ
  sentence : String
  deriving DecidableEq, Repr, Inhabited

/-- The Python code guards `word[-1]` by a per-item `try`/`except`; the only
possible exception there is the `IndexError` on an empty (stripped) word, so
the sentence-flush test is: the word is non-empty, its last character is a
punctuation mark, and the word is not the literal ellipsis `"..."`. -/
def flushTest (word : String) : Bool :=
  word ≠ "" && PUNCTUATION_MARKS.contains word.back && word ≠ "..."

/-- The loop of `process_audio_transcript_to_word_and_sentences_transcript`,
with the loop state passed explicitly; returns the word transcript, the
sentence transcript emitted inside the loop, and the final state (used by the
trailing flush). -/
def processLoop :
    List WordEntry → GroupState → List WordEntry × List SentenceEntry × GroupState
  | [], st => ([], [], st)
  | t :: ts, st =>
    let word := pyStrip t.word
    let sentence := st.sentence ++ word ++ " "
    let word_end := t.«end»
    let wordEntry : WordEntry := { word := sentence, start := st.word_start, «end» := word_end }
    if flushTest word then
      let sentenceEntry : SentenceEntry :=
        { sentence := sentence, start := st.sentence_start, «end» := word_end }
      let next := processLoop ts
        { sentence_start := word_end, sentence_end := word_end,
          word_start := word_end, sentence := "" }
      (wordEntry :: next.1, sentenceEntry :: next.2.1, next.2.2)
    else
      let next := processLoop ts
        { st with word_start := word_end, sentence := sentence }
      (wordEntry :: next.1, next.2.1, next.2.2)

/-- `MoviepyCreateVideo.process_audio_transcript_to_word_and_sentences_transcript`:
run the loop from the initial state and append the trailing sentence flush when
the accumulator is non-empty. -/
def process_audio_transcript_to_word_and_sentences_transcript
    (audio_transcript : List WordEntry) : List WordEntry × List SentenceEntry :=
  let r := processLoop audio_transcript
    { sentence_start := 0, sentence_end := 0, word_start := 0, sentence := "" }
  (r.1,
   if r.2.2.sentence ≠ "" then
     r.2.1 ++ [{ sentence := r.2.2.sentence, start := r.2.2.sentence_start,
                 «end» := r.2.2.sentence_end }]
   else r.2.1)

/-- `ShortsMaker._filter_word_transcript`: keep the entries whose `start` is
positive and whose duration is under five seconds. -/
def filter_word_transcript (transcript : List WordEntry) : List WordEntry :=
  transcript.filter (fun entry => decide (0 < entry.start) && decide (entry.«end» - entry.start < 5))

/-- Claim-side sentence-terminator predicate: the last character of the
(stripped) word is a configured punctuation mark and the word is not the
literal ellipsis.  Unlike `flushTest` it carries no explicit non-emptiness
guard; the two are proved equal below (an empty string has no last character,
and `String.back ""` is not a punctuation mark). -/
def sentence_terminator (word : String) : Bool :=
  PUNCTUATION_MARKS.contains word.back && word ≠ "..."

/-- Claim-side cumulative sentence text: `accFrom sent ws i` is the sentence
text accumulated after processing words `ws[0..i]`, starting from accumulator
value `sent`, where the accumulator is reset after each word that satisfies
`sentence_terminator`.  Each word contributes itself followed by one space. -/
def accFrom (sent : String) (ws : List String) : Nat → String
  | 0 => sent ++ ws.getD 0 "" ++ " "
  | i + 1 =>
    (if sentence_terminator (ws.getD i "") then "" else accFrom sent ws i) ++
      ws.getD (i + 1) "" ++ " "

/-- Claim-side candidate windows, following the spec's words: prefixes of
lengths `n + k` and `n - k`, where "any window length `< 0` contributes an
empty-string candidate". -/
def claim_windows (script_words : List String) (n : Nat) : List String :=
  window_sizes.flatMap (fun w =>
    [pyJoin " " (script_words.take (n + w)),
     if (n : Int) - (w : Int) < 0 then "" else pyJoin " " (script_words.take (n - w))])

example : pySplit "hello  world " = ["hello", "world"] := by decide
example : pySplit "" = [] := by decide
example : pyJoin " " ["a", "b", "c"] = "a b c" := by decide
example : pySliceTo ["a", "b", "c"] (-1) = ["a", "b"] := by decide
example : pySliceTo ["a", "b", "c"] (-4) = [] := by decide
example : pySliceTo ["a", "b", "c"] 2 = ["a", "b"] := by decide
example :
    possible_windows_for ["a", "b", "c"] 1 =
      ["a", "a", "a b", "", "a b c", "a b", "a b c", "a", "a b c", "", "a b c", ""] := by
  decide

example : flushTest "" = false := by decide
example : PUNCTUATION_MARKS.contains (String.back "") = false := by decide
example : sentence_terminator "..." = false := by decide
example : sentence_terminator "world." = true := by decide
example :
    (process_audio_transcript_to_word_and_sentences_transcript
      [⟨"Hello", 0, 1⟩, ⟨"world.", 1, 2⟩, ⟨"This", 2, 3⟩, ⟨"is", 3, 4⟩,
       ⟨"a", 4, 5⟩, ⟨"test.", 5, 6⟩]).2 =
      [⟨"Hello world. ", 0, 2⟩, ⟨"This is a test. ", 2, 6⟩] := by decide
example :
    ((process_audio_transcript_to_word_and_sentences_transcript
      [⟨"Hello", 0, 1⟩, ⟨"world.", 1, 2⟩]).1) =
      [⟨"Hello ", 0, 1⟩, ⟨"Hello world. ", 1, 2⟩] := by decide
example :
    preprocess_audio_transcript [⟨"a", 0, 11⟩, ⟨"b", 15, 22⟩, ⟨"c", 25, 30⟩] =
      [⟨"a", 0, 15⟩, ⟨"b", 15, 25⟩, ⟨"c", 25, 30⟩] := by decide
example : filter_word_transcript [⟨"w", 1, 6⟩] = [] := by
  norm_num [filter_word_transcript]
example : filter_word_transcript [⟨"w", 1, 1 + 4999/1000⟩] = [⟨"w", 1, 1 + 4999/1000⟩] := by
  norm_num [filter_word_transcript]
example : filter_word_transcript [⟨"w", 0, 1⟩] = [] := by
  simp [filter_word_transcript]
example : filter_word_transcript [⟨"w", -1, 0⟩] = [] := by
  norm_num [filter_word_transcript]

/-! ### Helper lemmas about the aligner -/

lemma alignLoop_fst_length (score : String → String → ℚ) :
    ∀ (ts : List Segment) (sw : List String),
      ((alignLoop score ts sw).1).length = ts.length := by
  intro ts
  induction ts with
  | nil => intro sw; rfl
  | cons e es ih => intro sw; simp [alignLoop, ih]

lemma alignStep_timestamps (score : String → String → ℚ) (sw : List String) (entry : Segment) :
    ((alignStep score sw entry).1).start = entry.start ∧
      ((alignStep score sw entry).1).«end» = entry.«end» := by
  constructor <;> rfl

lemma alignLoop_getD (score : String → String → ℚ) :
    ∀ (ts : List Segment) (sw : List String) (i : Nat),
      (((alignLoop score ts sw).1).getD i default).start = (ts.getD i default).start ∧
        (((alignLoop score ts sw).1).getD i default).«end» = (ts.getD i default).«end» := by
  intro ts
  induction ts with
  | nil => intro sw i; simp [alignLoop]
  | cons e es ih =>
    intro sw i
    cases i with
    | zero =>
      simpa [alignLoop] using alignStep_timestamps score sw e
    | succ j =>
      simpa [alignLoop] using ih _ j

/-- C1: `align_transcript_with_script` preserves the number of segments, their
order, and every segment's `start` and `end` timestamps; only the text may
change.  No assumption `start ≤ end` is needed: the timestamps are arbitrary
rationals. -/
theorem align_preserves_order_count_timestamps (score : String → String → ℚ)
    (transcript : List Segment) (script_string : String) :
    (align_transcript_with_script score transcript script_string).length = transcript.length ∧
      ∀ i : Nat,
        ((align_transcript_with_script score transcript script_string).getD i default).start =
            (transcript.getD i default).start ∧
          ((align_transcript_with_script score transcript script_string).getD i default).«end» =
            (transcript.getD i default).«end» := by
  refine ⟨alignLoop_fst_length score transcript _, fun i => ?_⟩
  exact alignLoop_getD score transcript _ i

/-! ### Helper lemmas for the empty-input cases -/

lemma possible_windows_for_nil (n : Nat) :
    ∀ x ∈ possible_windows_for [] n, x = "" := by
  intro x hx
  simp only [possible_windows_for, window_sizes, List.mem_flatMap] at hx
  obtain ⟨w, -, hx⟩ := hx
  have h1 : ∀ j : Int, pySliceTo [] j = [] := by
    intro j
    simp [pySliceTo]
  simp [h1, pyJoin] at hx
  tauto

lemma extractOne_of_all_empty (score : String → String → ℚ) (q : String) :
    ∀ (l : List String), (∀ x ∈ l, x = "") → l ≠ [] →
      extractOne score q l = "" := by
  intro l
  cases l with
  | nil => intro _ h; exact absurd rfl h
  | cons c cs =>
    intro hall _
    have hgen : ∀ (ms : List String) (acc : String), (∀ x ∈ ms, x = "") → acc = "" →
        ms.foldl (fun best x => if score q best < score q x then x else best) acc = "" := by
      intro ms
      induction ms with
      | nil => intro acc _ hacc; exact hacc
      | cons m ms ih =>
        intro acc hall' hacc
        simp only [List.foldl_cons]
        apply ih
        · intro x hx; exact hall' x (List.mem_cons_of_mem _ hx)
        · have hm : m = "" := hall' m (List.mem_cons_self _ _)
          subst hm; subst hacc
          split <;> rfl
    exact hgen cs c (fun x hx => hall x (List.mem_cons_of_mem _ hx))
      (hall c (List.mem_cons_self _ _))

lemma alignStep_nil_script (score : String → String → ℚ) (entry : Segment) :
    alignStep score [] entry = (entry, []) := by
  have hempty : extractOne score entry.text
      (possible_windows_for [] (pySplit entry.text).length) = "" := by
    apply extractOne_of_all_empty score entry.text _ (possible_windows_for_nil _)
    simp only [possible_windows_for, window_sizes]
    intro hcontra
    have h6 : List.range 6 = [0, 1, 2, 3, 4, 5] := by rfl
    rw [h6] at hcontra
    simp [List.flatMap] at hcontra
  simp only [alignStep, hempty]
  simp

/-- C4: alignment of an empty transcript is empty (for any script), and
alignment of any transcript against the empty script returns every segment
unchanged, leaving the (empty) reference cursor untouched. -/
theorem align_empty_inputs (score : String → String → ℚ) :
    (∀ script_string : String,
        align_transcript_with_script score [] script_string = []) ∧
      ∀ transcript : List Segment,
        align_transcript_with_script score transcript "" = transcript ∧
          (alignLoop score transcript (pySplit "")).2 = [] := by
  constructor
  · intro s; rfl
  · intro transcript
    have hps : pySplit "" = [] := rfl
    rw [align_transcript_with_script, hps]
    induction transcript with
    | nil => exact ⟨rfl, rfl⟩
    | cons e es ih =>
      have hstep : alignStep score [] e = (e, []) := alignStep_nil_script score e
      simp only [alignLoop, hstep]
      exact ⟨by simp [ih.1], by simp [ih.2]⟩

/-! ### C7: timestamp gap-closing -/

/-- C7: gap-closing sets each entry's `end` to the next entry's `start`, leaves
the last entry's `end` untouched, and preserves count, order, words and all
`start` times. -/
theorem preprocess_gap_closing (ts : List WordEntry) :
    (preprocess_audio_transcript ts).length = ts.length ∧
      (∀ i : Nat,
        ((preprocess_audio_transcript ts).getD i default).word = (ts.getD i default).word ∧
          ((preprocess_audio_transcript ts).getD i default).start = (ts.getD i default).start) ∧
      (∀ i : Nat, i + 1 < ts.length →
        ((preprocess_audio_transcript ts).getD i default).«end» =
          (ts.getD (i + 1) default).start) ∧
      (ts ≠ [] →
        ((preprocess_audio_transcript ts).getD (ts.length - 1) default).«end» =
          (ts.getD (ts.length - 1) default).«end») := by
  induction ts with
  | nil => simp [preprocess_audio_transcript]
  | cons t ts ih =>
    cases ts with
    | nil =>
      refine ⟨rfl, fun i => ?_, fun i h => ?_, fun _ => rfl⟩
      · cases i with
        | zero => exact ⟨rfl, rfl⟩
        | succ j => simp [preprocess_audio_transcript]
      · simp only [List.length_cons, List.length_nil] at h
        omega
    | cons t' rest =>
      obtain ⟨ihlen, ihws, ihgap, ihlast⟩ := ih
      refine ⟨by simpa [preprocess_audio_transcript] using ihlen, fun i => ?_, fun i h => ?_,
        fun _ => ?_⟩
      · cases i with
        | zero => exact ⟨rfl, rfl⟩
        | succ j =>
          simpa [preprocess_audio_transcript] using ihws j
      · cases i with
        | zero => rfl
        | succ j =>
          have hj : j + 1 < (t' :: rest).length := by
            simpa using h
          simpa [preprocess_audio_transcript] using ihgap j hj
      · have hne : (t' :: rest) ≠ [] := by simp
        have := ihlast hne
        simpa [preprocess_audio_transcript] using this

/-- Witness for C7: gap-closing on a concrete two-entry transcript. -/
theorem preprocess_gap_closing_witness :
    ((preprocess_audio_transcript [⟨"a", 0, 1⟩, ⟨"b", 2, 3⟩]).getD 0 default).«end» =
        (([⟨"a", 0, 1⟩, ⟨"b", 2, 3⟩] : List WordEntry).getD (0 + 1) default).start ∧
      ((preprocess_audio_transcript [⟨"a", 0, 1⟩, ⟨"b", 2, 3⟩]).getD
          (([⟨"a", 0, 1⟩, ⟨"b", 2, 3⟩] : List WordEntry).length - 1) default).«end» =
        (([⟨"a", 0, 1⟩, ⟨"b", 2, 3⟩] : List WordEntry).getD
          (([⟨"a", 0, 1⟩, ⟨"b", 2, 3⟩] : List WordEntry).length - 1) default).«end» :=
  ⟨(preprocess_gap_closing [⟨"a", 0, 1⟩, ⟨"b", 2, 3⟩]).2.2.1 0 (by decide),
   (preprocess_gap_closing [⟨"a", 0, 1⟩, ⟨"b", 2, 3⟩]).2.2.2 (by decide)⟩

/-! ### C8: the word-transcript quality filter -/

/-- C8 counterexample: the claim says the filter drops exactly the entries with
`start = 0` or duration `≥ 5`, so an entry with negative `start` and small
duration should pass through; the code drops it (its condition is `start > 0`). -/
theorem filter_negative_start_counterexample :
    filter_word_transcript [⟨"w", -1, 0⟩] = [] ∧
      ¬ ((⟨"w", -1, 0⟩ : WordEntry).start = 0) ∧
      (⟨"w", -1, 0⟩ : WordEntry).«end» - (⟨"w", -1, 0⟩ : WordEntry).start < 5 := by
  norm_num [filter_word_transcript]

/-- C8 (amended): the filter drops exactly the entries whose `start` is `≤ 0`
or whose duration is `≥ 5` (equivalently, keeps exactly those with `start > 0`
and duration `< 5`), preserving order; an entry with duration exactly `5` is
dropped, one with `start > 0` and duration `4.999` is kept, and one with
`start = 0` is dropped. -/
theorem filter_boundary_amended (ts : List WordEntry) (e : WordEntry) :
    (e ∈ filter_word_transcript ts ↔ e ∈ ts ∧ 0 < e.start ∧ e.«end» - e.start < 5) ∧
      List.Sublist (filter_word_transcript ts) ts ∧
      filter_word_transcript [⟨"w", 0, 1⟩] = [] ∧
      filter_word_transcript [⟨"w", 1, 6⟩] = [] ∧
      filter_word_transcript [⟨"w", 1, 1 + 4999 / 1000⟩] = [⟨"w", 1, 1 + 4999 / 1000⟩] := by
  refine ⟨?_, List.filter_sublist _, ?_, ?_, ?_⟩
  · simp [filter_word_transcript, List.mem_filter, and_assoc]
  · norm_num [filter_word_transcript]
  · norm_num [filter_word_transcript]
  · norm_num [filter_word_transcript]

/-! ### C3: the candidate windows -/

lemma pySliceTo_add (l : List String) (a b : Nat) :
    pySliceTo l ((a : Int) + (b : Int)) = l.take (a + b) := by
  have h : (0 : Int) ≤ (a : Int) + (b : Int) := by positivity
  have h2 : ((a : Int) + (b : Int)).toNat = a + b := by omega
  simp [pySliceTo, h, h2]

lemma pySliceTo_sub (l : List String) (a b : Nat) :
    pySliceTo l ((a : Int) - (b : Int)) =
      if b ≤ a then l.take (a - b) else l.take (l.length - (b - a)) := by
  rcases le_or_lt b a with hba | hba
  · have h : (0 : Int) ≤ (a : Int) - (b : Int) := by omega
    have h2 : ((a : Int) - (b : Int)).toNat = a - b := by omega
    simp [pySliceTo, h, h2, hba]
  · have h : ¬ (0 : Int) ≤ (a : Int) - (b : Int) := by omega
    have h2 : (-((a : Int) - (b : Int))).toNat = b - a := by omega
    rw [pySliceTo, if_neg h, h2, if_neg (by omega)]

/-- C3 counterexample: with remaining reference `["a", "b", "c"]` and a
one-token segment text, the `k = 2` "minus" window has negative length `-1`;
the claim says it contributes the empty string, but the code's Python slice
`script_words[:-1]` contributes `"a b"`. -/
theorem possible_windows_negative_counterexample :
    possible_windows_for ["a", "b", "c"] 1 ≠ claim_windows ["a", "b", "c"] 1 ∧
      (possible_windows_for ["a", "b", "c"] 1).getD 5 "?" = "a b" ∧
      (claim_windows ["a", "b", "c"] 1).getD 5 "?" = "" ∧
      ((1 : Int) - 2 < 0) := by
  refine ⟨?_, by decide, by decide, by decide⟩
  decide

lemma possible_windows_eq (sw : List String) (n : Nat) :
    possible_windows_for sw n =
      [pyJoin " " (sw.take (n + 0)),
       pyJoin " " (sw.take (n - 0)),
       pyJoin " " (sw.take (n + 1)),
       pyJoin " " (if 1 ≤ n then sw.take (n - 1) else sw.take (sw.length - (1 - n))),
       pyJoin " " (sw.take (n + 2)),
       pyJoin " " (if 2 ≤ n then sw.take (n - 2) else sw.take (sw.length - (2 - n))),
       pyJoin " " (sw.take (n + 3)),
       pyJoin " " (if 3 ≤ n then sw.take (n - 3) else sw.take (sw.length - (3 - n))),
       pyJoin " " (sw.take (n + 4)),
       pyJoin " " (if 4 ≤ n then sw.take (n - 4) else sw.take (sw.length - (4 - n))),
       pyJoin " " (sw.take (n + 5)),
       pyJoin " " (if 5 ≤ n then sw.take (n - 5) else sw.take (sw.length - (5 - n)))] := by
  have h6 : window_sizes = [0, 1, 2, 3, 4, 5] := by rfl
  simp only [possible_windows_for, h6, List.flatMap_cons, List.flatMap_nil, List.append_nil,
    List.cons_append, List.nil_append, pySliceTo_add, pySliceTo_sub]
  norm_num

/-- C3 (amended): for a segment with `n` tokens the candidate list has, for
each `k` in `0..5` and in generation order, the joined prefix of length
`n + k` and the joined "minus" window: the prefix of length `n - k` when
`k ≤ n`, and otherwise (Python negative slice) the prefix obtained by dropping
the last `k - n` tokens, which is empty only when at most `k - n` tokens
remain. -/
theorem possible_windows_amended (sw : List String) (n : Nat) :
    possible_windows_for sw n =
      [pyJoin " " (sw.take (n + 0)),
       pyJoin " " (sw.take (n - 0)),
       pyJoin " " (sw.take (n + 1)),
       pyJoin " " (if 1 ≤ n then sw.take (n - 1) else sw.take (sw.length - (1 - n))),
       pyJoin " " (sw.take (n + 2)),
       pyJoin " " (if 2 ≤ n then sw.take (n - 2) else sw.take (sw.length - (2 - n))),
       pyJoin " " (sw.take (n + 3)),
       pyJoin " " (if 3 ≤ n then sw.take (n - 3) else sw.take (sw.length - (3 - n))),
       pyJoin " " (sw.take (n + 4)),
       pyJoin " " (if 4 ≤ n then sw.take (n - 4) else sw.take (sw.length - (4 - n))),
       pyJoin " " (sw.take (n + 5)),
       pyJoin " " (if 5 ≤ n then sw.take (n - 5) else sw.take (sw.length - (5 - n)))] :=
  possible_windows_eq sw n

/-! ### C2: monotonic consumption of the reference script -/

lemma splitOnP_chunks (p : Char → Bool) :
    ∀ (xs : List Char), ∀ c ∈ xs.splitOnP p, ∀ x ∈ c, p x = false := by
  intro xs
  induction xs with
  | nil =>
    intro c hc
    rw [List.splitOnP_nil] at hc
    rcases List.mem_singleton.mp hc with rfl
    intro x hx
    exact absurd hx (List.not_mem_nil x)
  | cons y ys ih =>
    intro c hc
    rw [List.splitOnP_cons] at hc
    by_cases hy : p y
    · rw [if_pos hy] at hc
      rcases List.mem_cons.mp hc with rfl | hc
      · intro x hx; exact absurd hx (List.not_mem_nil x)
      · exact ih c hc
    · rw [if_neg hy] at hc
      cases hsp : ys.splitOnP p with
      | nil => exact absurd hsp (List.splitOnP_ne_nil _ _)
      | cons hd tl =>
        rw [hsp] at hc
        simp only [List.modifyHead] at hc
        rcases List.mem_cons.mp hc with rfl | hc
        · intro x hx
          rcases List.mem_cons.mp hx with rfl | hx
          · exact Bool.eq_false_iff.mpr hy
          · exact ih hd (hsp ▸ List.mem_cons_self hd tl) x hx
        · exact ih c (hsp ▸ List.mem_cons_of_mem hd hc)

lemma pySplit_tokens (s : String) :
    ∀ t ∈ pySplit s, t ≠ "" ∧ ∀ c ∈ t.data, c.isWhitespace = false := by
  intro t ht
  unfold pySplit at ht
  have hin := List.mem_of_mem_filter ht
  have hne : t ≠ "" := by
    have := List.of_mem_filter ht
    simpa using this
  refine ⟨hne, ?_⟩
  rcases List.mem_map.mp hin with ⟨l, hl, rfl⟩
  intro c hc
  exact splitOnP_chunks _ s.data l hl c hc

lemma pySplit_pyJoin :
    ∀ (toks : List String),
      (∀ t ∈ toks, t ≠ "" ∧ ∀ c ∈ t.data, c.isWhitespace = false) →
      pySplit (pyJoin " " toks) = toks := by
  intro toks
  induction toks with
  | nil => intro _; rfl
  | cons t ts ih =>
    intro hv
    have hvt := hv t (List.mem_cons_self t ts)
    cases ts with
    | nil =>
      have hsingle : t.data.splitOnP (fun c => c.isWhitespace) = [t.data] :=
        List.splitOnP_eq_single _ _ (by
          intro x hx h
          exact absurd h (by simp [hvt.2 x hx]))
      show pySplit t = [t]
      unfold pySplit
      rw [hsingle]
      simp [hvt.1]
    | cons t' ts' =>
      have hv' : ∀ u ∈ t' :: ts', u ≠ "" ∧ ∀ c ∈ u.data, c.isWhitespace = false := by
        intro u hu; exact hv u (List.mem_cons_of_mem _ hu)
      have ihok := ih hv'
      have hdata : (pyJoin " " (t :: t' :: ts')).data =
          t.data ++ ' ' :: (pyJoin " " (t' :: ts')).data := by
        show (t ++ " " ++ pyJoin " " (t' :: ts')).data = _
        simp [String.data_append]
      have hsplit : (pyJoin " " (t :: t' :: ts')).data.splitOnP (fun c => c.isWhitespace) =
          t.data :: (pyJoin " " (t' :: ts')).data.splitOnP (fun c => c.isWhitespace) := by
        rw [hdata]
        exact List.splitOnP_first _ _ (by
          intro x hx h
          exact absurd h (by simp [hvt.2 x hx])) ' ' (by decide) _
      unfold pySplit
      rw [hsplit]
      unfold pySplit at ihok
      simpa [hvt.1] using ihok

lemma pySliceTo_eq_take (l : List String) (j : Int) :
    ∃ m, m ≤ l.length ∧ pySliceTo l j = l.take m := by
  unfold pySliceTo
  split
  · rcases le_or_lt j.toNat l.length with h | h
    · exact ⟨j.toNat, h, rfl⟩
    · exact ⟨l.length, le_refl _, by rw [List.take_of_length_le (le_of_lt h), List.take_length]⟩
  · exact ⟨l.length - (-j).toNat, Nat.sub_le _ _, rfl⟩

lemma possible_windows_are_prefixes (sw : List String) (n : Nat) :
    ∀ x ∈ possible_windows_for sw n, ∃ m, m ≤ sw.length ∧ x = pyJoin " " (sw.take m) := by
  intro x hx
  simp only [possible_windows_for, List.mem_flatMap] at hx
  obtain ⟨w, -, hx⟩ := hx
  rcases List.mem_cons.mp hx with rfl | hx
  · obtain ⟨m, hm, he⟩ := pySliceTo_eq_take sw ((n : Int) + (w : Int))
    exact ⟨m, hm, by rw [he]⟩
  · rcases List.mem_cons.mp hx with rfl | hx
    · obtain ⟨m, hm, he⟩ := pySliceTo_eq_take sw ((n : Int) - (w : Int))
      exact ⟨m, hm, by rw [he]⟩
    · exact absurd hx (List.not_mem_nil x)

lemma foldl_choice (score : String → String → ℚ) (q : String) :
    ∀ (cs : List String) (acc : String),
      cs.foldl (fun best x => if score q best < score q x then x else best) acc = acc ∨
        cs.foldl (fun best x => if score q best < score q x then x else best) acc ∈ cs := by
  intro cs
  induction cs with
  | nil => intro acc; exact Or.inl rfl
  | cons m ms ih =>
    intro acc
    simp only [List.foldl_cons]
    rcases ih (if score q acc < score q m then m else acc) with h | h
    · rw [h]
      split
      · exact Or.inr (List.mem_cons_self _ _)
      · exact Or.inl rfl
    · exact Or.inr (List.mem_cons_of_mem _ h)

lemma extractOne_mem (score : String → String → ℚ) (q : String) (c : String)
    (cs : List String) : extractOne score q (c :: cs) ∈ c :: cs := by
  show cs.foldl (fun best x => if score q best < score q x then x else best) c ∈ c :: cs
  rcases foldl_choice score q cs c with h | h
  · rw [h]; exact List.mem_cons_self _ _
  · exact List.mem_cons_of_mem _ h

lemma possible_windows_ne_nil (sw : List String) (n : Nat) :
    ∃ c cs, possible_windows_for sw n = c :: cs := by
  rw [possible_windows_eq]
  exact ⟨_, _, rfl⟩

lemma alignStep_spec (score : String → String → ℚ) (sw : List String) (entry : Segment)
    (hv : ∀ t ∈ sw, t ≠ "" ∧ ∀ c ∈ t.data, c.isWhitespace = false) :
    (extractOne score entry.text (possible_windows_for sw (pySplit entry.text).length) = "" ∧
        (alignStep score sw entry).2 = sw) ∨
      (extractOne score entry.text (possible_windows_for sw (pySplit entry.text).length) ≠ "" ∧
        ∃ m, 0 < m ∧ m ≤ sw.length ∧
          extractOne score entry.text (possible_windows_for sw (pySplit entry.text).length) =
            pyJoin " " (sw.take m) ∧
          (pySplit (extractOne score entry.text
            (possible_windows_for sw (pySplit entry.text).length))).length = m ∧
          (alignStep score sw entry).2 = sw.drop m) := by
  set best := extractOne score entry.text (possible_windows_for sw (pySplit entry.text).length)
    with hbest
  by_cases hb : best = ""
  · left
    refine ⟨hb, ?_⟩
    simp only [alignStep, ← hbest, hb]
    simp
  · right
    refine ⟨hb, ?_⟩
    obtain ⟨c, cs, hpw⟩ := possible_windows_ne_nil sw (pySplit entry.text).length
    have hmem : best ∈ possible_windows_for sw (pySplit entry.text).length := by
      rw [hpw]
      rw [hbest, hpw]
      exact extractOne_mem score entry.text c cs
    obtain ⟨m, hm, heq⟩ := possible_windows_are_prefixes _ _ best hmem
    have hvtake : ∀ t ∈ sw.take m, t ≠ "" ∧ ∀ c ∈ t.data, c.isWhitespace = false := by
      intro t ht; exact hv t (List.take_subset m sw ht)
    have hsplit : pySplit best = sw.take m := by
      rw [heq]; exact pySplit_pyJoin (sw.take m) hvtake
    have hlen : (pySplit best).length = m := by
      rw [hsplit, List.length_take]
      omega
    have hmpos : 0 < m := by
      rcases Nat.eq_zero_or_pos m with rfl | h
      · exfalso
        apply hb
        rw [heq]
        rfl
      · exact h
    refine ⟨m, hmpos, hm, heq, hlen, ?_⟩
    simp only [alignStep, ← hbest]
    simp only [if_pos hb, ne_eq, hb, not_false_iff, if_true]
    rw [hlen]

lemma alignLoop_suffix (score : String → String → ℚ) :
    ∀ (ts : List Segment) (sw : List String),
      (∀ t ∈ sw, t ≠ "" ∧ ∀ c ∈ t.data, c.isWhitespace = false) →
      ∃ k, k ≤ sw.length ∧ (alignLoop score ts sw).2 = sw.drop k := by
  intro ts
  induction ts with
  | nil => intro sw _; exact ⟨0, Nat.zero_le _, rfl⟩
  | cons e es ih =>
    intro sw hv
    have hstep := alignStep_spec score sw e hv
    rcases hstep with ⟨-, h2⟩ | ⟨-, m, -, hm, -, -, h2⟩
    · obtain ⟨k, hk, hfin⟩ := ih sw hv
      refine ⟨k, hk, ?_⟩
      simpa [alignLoop, h2] using hfin
    · have hv' : ∀ t ∈ sw.drop m, t ≠ "" ∧ ∀ c ∈ t.data, c.isWhitespace = false := by
        intro t ht; exact hv t (List.drop_subset m sw ht)
      obtain ⟨k, hk, hfin⟩ := ih (sw.drop m) hv'
      refine ⟨m + k, ?_, ?_⟩
      · have := List.length_drop m sw
        omega
      · rw [← List.drop_drop]
        simpa [alignLoop, h2] using hfin

/-- C2: across the alignment loop the remaining reference tokens only shrink.
Per iteration the cursor is unchanged (no match) or loses exactly
`len(best_match.split())` tokens from its front, where the best match is the
space-join of a prefix of the current remaining tokens; consequently the final
cursor of a whole run is a suffix (`drop k`) of the script's token list with
`k` at most the script's token count, so consumed tokens never reappear. -/
theorem align_monotonic_consumption (score : String → String → ℚ) :
    (∀ (sw : List String) (entry : Segment),
      (∀ t ∈ sw, t ≠ "" ∧ ∀ c ∈ t.data, c.isWhitespace = false) →
      (extractOne score entry.text (possible_windows_for sw (pySplit entry.text).length) = "" ∧
          (alignStep score sw entry).2 = sw) ∨
        (extractOne score entry.text (possible_windows_for sw (pySplit entry.text).length) ≠ "" ∧
          ∃ m, 0 < m ∧ m ≤ sw.length ∧
            extractOne score entry.text (possible_windows_for sw (pySplit entry.text).length) =
              pyJoin " " (sw.take m) ∧
            (pySplit (extractOne score entry.text
              (possible_windows_for sw (pySplit entry.text).length))).length = m ∧
            (alignStep score sw entry).2 = sw.drop m)) ∧
      ∀ (transcript : List Segment) (script_string : String),
        ∃ k, k ≤ (pySplit script_string).length ∧
          (alignLoop score transcript (pySplit script_string)).2 =
            (pySplit script_string).drop k := by
  constructor
  · intro sw entry hv
    exact alignStep_spec score sw entry hv
  · intro transcript script_string
    exact alignLoop_suffix score transcript _ (pySplit_tokens script_string)

/-- Witness for C2: a concrete instantiation of the per-step characterization,
with the token-validity hypothesis discharged by computation. -/
theorem align_monotonic_consumption_witness :
    (extractOne (fun _ _ => 0) (Segment.text ⟨"hello", 0, 1⟩)
        (possible_windows_for ["hello", "world"]
          (pySplit (Segment.text ⟨"hello", 0, 1⟩)).length) = "" ∧
      (alignStep (fun _ _ => 0) ["hello", "world"] ⟨"hello", 0, 1⟩).2 = ["hello", "world"]) ∨
    (extractOne (fun _ _ => 0) (Segment.text ⟨"hello", 0, 1⟩)
        (possible_windows_for ["hello", "world"]
          (pySplit (Segment.text ⟨"hello", 0, 1⟩)).length) ≠ "" ∧
      ∃ m, 0 < m ∧ m ≤ (["hello", "world"] : List String).length ∧
        extractOne (fun _ _ => 0) (Segment.text ⟨"hello", 0, 1⟩)
            (possible_windows_for ["hello", "world"]
              (pySplit (Segment.text ⟨"hello", 0, 1⟩)).length) =
          pyJoin " " ((["hello", "world"] : List String).take m) ∧
        (pySplit (extractOne (fun _ _ => 0) (Segment.text ⟨"hello", 0, 1⟩)
            (possible_windows_for ["hello", "world"]
              (pySplit (Segment.text ⟨"hello", 0, 1⟩)).length))).length = m ∧
        (alignStep (fun _ _ => 0) ["hello", "world"] ⟨"hello", 0, 1⟩).2 =
          (["hello", "world"] : List String).drop m) :=
  (align_monotonic_consumption (fun _ _ => 0)).1 ["hello", "world"] ⟨"hello", 0, 1⟩ (by decide)

/-! ### Helper lemmas for the word/sentence grouping pass -/

lemma processLoop_length :
    ∀ (ts : List WordEntry) (st : GroupState), ((processLoop ts st).1).length = ts.length := by
  intro ts
  induction ts with
  | nil => intro st; rfl
  | cons t ts ih =>
    intro st
    by_cases hf : flushTest (pyStrip t.word)
    · simp [processLoop, hf, ih]
    · simp [processLoop, hf, ih]

lemma flushTest_eq_sentence_terminator (w : String) :
    flushTest w = sentence_terminator w := by
  by_cases h : w = ""
  · subst h; decide
  · simp [flushTest, sentence_terminator, h]

lemma accFrom_shift (sent w : String) (ws : List String) :
    ∀ j : Nat, accFrom sent (w :: ws) (j + 1) =
      accFrom (if sentence_terminator w then "" else sent ++ w ++ " ") ws j := by
  intro j
  induction j with
  | zero =>
    simp [accFrom]
  | succ j ih =>
    show (if sentence_terminator ((w :: ws).getD (j + 1) "") then ""
        else accFrom sent (w :: ws) (j + 1)) ++ (w :: ws).getD (j + 2) "" ++ " " = _
    rw [ih]
    rfl

lemma processLoop_words :
    ∀ (ts : List WordEntry) (st : GroupState) (i : Nat), i < ts.length →
      (((processLoop ts st).1).getD i default).word =
          accFrom st.sentence (ts.map (fun t => pyStrip t.word)) i ∧
        (((processLoop ts st).1).getD i default).start =
          (if i = 0 then st.word_start else (ts.getD (i - 1) default).«end») ∧
        (((processLoop ts st).1).getD i default).«end» = (ts.getD i default).«end» := by
  intro ts
  induction ts with
  | nil =>
    intro st i hi
    exact absurd hi (by simp)
  | cons t ts ih =>
    intro st i hi
    by_cases hf : flushTest (pyStrip t.word)
    · cases i with
      | zero =>
        refine ⟨?_, ?_, ?_⟩ <;> simp [processLoop, hf, accFrom]
      | succ j =>
        have hj : j < ts.length := by simpa using hi
        have ihj := ih
          { sentence_start := t.«end», sentence_end := t.«end»,
            word_start := t.«end», sentence := "" } j hj
        have hshift := accFrom_shift st.sentence (pyStrip t.word)
          (ts.map (fun u => pyStrip u.word)) j
        rw [flushTest_eq_sentence_terminator] at hf
        refine ⟨?_, ?_, ?_⟩
        · show (((processLoop (t :: ts) st).1).getD (j + 1) default).word =
            accFrom st.sentence ((t :: ts).map (fun u => pyStrip u.word)) (j + 1)
          simp only [List.map_cons, hshift, hf, if_true]
          rw [← flushTest_eq_sentence_terminator] at hf
          simpa [processLoop, hf] using ihj.1
        · rw [← flushTest_eq_sentence_terminator] at hf
          have hstart := ihj.2.1
          cases j with
          | zero =>
            simpa [processLoop, hf] using hstart
          | succ k =>
            simpa [processLoop, hf] using hstart
        · rw [← flushTest_eq_sentence_terminator] at hf
          simpa [processLoop, hf] using ihj.2.2
    · cases i with
      | zero =>
        refine ⟨?_, ?_, ?_⟩ <;> simp [processLoop, hf, accFrom]
      | succ j =>
        have hj : j < ts.length := by simpa using hi
        have ihj := ih
          { st with word_start := t.«end», sentence := st.sentence ++ pyStrip t.word ++ " " } j hj
        have hshift := accFrom_shift st.sentence (pyStrip t.word)
          (ts.map (fun u => pyStrip u.word)) j
        have hf' : sentence_terminator (pyStrip t.word) = false := by
          rw [← flushTest_eq_sentence_terminator]
          exact Bool.eq_false_iff.mpr hf
        refine ⟨?_, ?_, ?_⟩
        · show (((processLoop (t :: ts) st).1).getD (j + 1) default).word =
            accFrom st.sentence ((t :: ts).map (fun u => pyStrip u.word)) (j + 1)
          simp only [List.map_cons, hshift, hf', if_false, Bool.false_eq_true]
          simpa [processLoop, hf] using ihj.1
        · have hstart := ihj.2.1
          cases j with
          | zero =>
            simpa [processLoop, hf] using hstart
          | succ k =>
            simpa [processLoop, hf] using hstart
        · simpa [processLoop, hf] using ihj.2.2

/-- C5: word/sentence grouping emits one word-transcript entry per input word,
in order; entry `i` carries the cumulative sentence-so-far text (stripped
words each followed by one space, restarting after each sentence terminator),
a `start` equal to the previous word's `end` (`0` for the first word,
continuing across sentence boundaries), and an `end` equal to word `i`'s
`end`. -/
theorem word_transcript_cumulative (ts : List WordEntry) (i : Nat) (hi : i < ts.length) :
    ((process_audio_transcript_to_word_and_sentences_transcript ts).1).length = ts.length ∧
      (((process_audio_transcript_to_word_and_sentences_transcript ts).1).getD i default).word =
        accFrom "" (ts.map (fun t => pyStrip t.word)) i ∧
      (((process_audio_transcript_to_word_and_sentences_transcript ts).1).getD i default).start =
        (if i = 0 then 0 else (ts.getD (i - 1) default).«end») ∧
      (((process_audio_transcript_to_word_and_sentences_transcript ts).1).getD i default).«end» =
        (ts.getD i default).«end» := by
  have hwords := processLoop_words ts
    { sentence_start := 0, sentence_end := 0, word_start := 0, sentence := "" } i hi
  exact ⟨processLoop_length ts _, hwords.1, hwords.2.1, hwords.2.2⟩

/-- Witness for C5: the second word entry of a concrete two-word input. -/
theorem word_transcript_cumulative_witness :
    ((process_audio_transcript_to_word_and_sentences_transcript
        [⟨"Hello", 0, 1⟩, ⟨"world.", 1, 2⟩]).1).length = 2 ∧
      (((process_audio_transcript_to_word_and_sentences_transcript
          [⟨"Hello", 0, 1⟩, ⟨"world.", 1, 2⟩]).1).getD 1 default).word =
        accFrom "" (([⟨"Hello", 0, 1⟩, ⟨"world.", 1, 2⟩] : List WordEntry).map
          (fun t => pyStrip t.word)) 1 ∧
      (((process_audio_transcript_to_word_and_sentences_transcript
          [⟨"Hello", 0, 1⟩, ⟨"world.", 1, 2⟩]).1).getD 1 default).start =
        (if 1 = 0 then 0
         else (([⟨"Hello", 0, 1⟩, ⟨"world.", 1, 2⟩] : List WordEntry).getD 0 default).«end») ∧
      (((process_audio_transcript_to_word_and_sentences_transcript
          [⟨"Hello", 0, 1⟩, ⟨"world.", 1, 2⟩]).1).getD 1 default).«end» =
        (([⟨"Hello", 0, 1⟩, ⟨"world.", 1, 2⟩] : List WordEntry).getD 1 default).«end» :=
  word_transcript_cumulative [⟨"Hello", 0, 1⟩, ⟨"world.", 1, 2⟩] 1 (by decide)

/-! ### C6: sentence boundaries -/

lemma processLoop_sent_count :
    ∀ (ts : List WordEntry) (st : GroupState),
      ((processLoop ts st).2.1).length =
        ts.countP (fun t => sentence_terminator (pyStrip t.word)) := by
  intro ts
  induction ts with
  | nil => intro st; rfl
  | cons t ts ih =>
    intro st
    by_cases hf : flushTest (pyStrip t.word)
    · have hterm : sentence_terminator (pyStrip t.word) = true := by
        rw [← flushTest_eq_sentence_terminator]; exact hf
      simp [processLoop, hf, ih, List.countP_cons, hterm]
    · have hterm : sentence_terminator (pyStrip t.word) = false := by
        rw [← flushTest_eq_sentence_terminator]; exact Bool.eq_false_iff.mpr hf
      simp [processLoop, hf, ih, List.countP_cons, hterm]

/-- C6: a sentence is flushed exactly at words whose stripped text ends in a
configured punctuation mark and is not the literal ellipsis `"..."`: the
number of sentences emitted by the loop equals the count of such words, a
single word produces a sentence iff it satisfies the predicate, and a word
equal to `"..."` never triggers a flush even though `'.'` is a configured
punctuation mark. -/
theorem sentence_flush_exactly_at_terminators :
    (∀ (ts : List WordEntry) (st : GroupState),
        ((processLoop ts st).2.1).length =
          ts.countP (fun t => sentence_terminator (pyStrip t.word))) ∧
      (∀ (st : GroupState) (t : WordEntry),
        (processLoop [t] st).2.1 ≠ [] ↔ sentence_terminator (pyStrip t.word) = true) ∧
      (∀ (st : GroupState) (a b : ℚ), (processLoop [⟨"...", a, b⟩] st).2.1 = []) ∧
      '.' ∈ PUNCTUATION_MARKS ∧ sentence_terminator "..." = false := by
  refine ⟨processLoop_sent_count, ?_, ?_, by decide, by decide⟩
  · intro st t
    by_cases hf : flushTest (pyStrip t.word)
    · have hterm : sentence_terminator (pyStrip t.word) = true := by
        rw [← flushTest_eq_sentence_terminator]; exact hf
      simp [processLoop, hf, hterm]
    · have hterm : sentence_terminator (pyStrip t.word) = false := by
        rw [← flushTest_eq_sentence_terminator]; exact Bool.eq_false_iff.mpr hf
      simp [processLoop, hf, hterm]
  · intro st a b
    have hf : flushTest (pyStrip "...") = false := by decide
    simp [processLoop, hf]

/-! ### C9: malformed words never abort the grouping pass -/

/-- C9: an entry whose stripped word is empty (the case whose `word[-1]` lookup
raises and is caught per item in the Python loop) does not abort grouping:
every input entry, including all entries after the malformed one, still
produces its word-transcript entry, and grouping is total on every input. -/
theorem malformed_word_never_aborts (pre post : List WordEntry) (bad : WordEntry)
    (hbad : pyStrip bad.word = "") :
    ((process_audio_transcript_to_word_and_sentences_transcript
        (pre ++ bad :: post)).1).length = pre.length + 1 + post.length ∧
      (∀ st : GroupState, (processLoop [bad] st).2.1 = []) ∧
      ∀ ts : List WordEntry,
        ((process_audio_transcript_to_word_and_sentences_transcript ts).1).length = ts.length := by
  refine ⟨?_, ?_, ?_⟩
  · have h := processLoop_length (pre ++ bad :: post)
      { sentence_start := 0, sentence_end := 0, word_start := 0, sentence := "" }
    have : (pre ++ bad :: post).length = pre.length + 1 + post.length := by
      simp [List.length_append]
      omega
    simpa [this] using h
  · intro st
    have hf : flushTest (pyStrip bad.word) = false := by
      rw [hbad]; decide
    simp [processLoop, hf]
  · intro ts
    exact processLoop_length ts _

/-- Witness for C9: a whitespace-only word between two normal words. -/
theorem malformed_word_never_aborts_witness :
    ((process_audio_transcript_to_word_and_sentences_transcript
        ([⟨"a", 0, 1⟩] ++ (⟨" ", 1, 2⟩ : WordEntry) :: [⟨"b.", 2, 3⟩])).1).length =
        ([⟨"a", 0, 1⟩] : List WordEntry).length + 1 + ([⟨"b.", 2, 3⟩] : List WordEntry).length ∧
      (∀ st : GroupState, (processLoop [(⟨" ", 1, 2⟩ : WordEntry)] st).2.1 = []) ∧
      ∀ ts : List WordEntry,
        ((process_audio_transcript_to_word_and_sentences_transcript ts).1).length = ts.length :=
  malformed_word_never_aborts [⟨"a", 0, 1⟩] [⟨"b.", 2, 3⟩] ⟨" ", 1, 2⟩ (by decide)

/-! ### C10: the trailing sentence flush -/

lemma append_space_ne_empty (s w : String) : s ++ w ++ " " ≠ "" := by
  intro h
  have hd := congrArg String.data h
  simp [String.data_append] at hd

lemma processLoop_final_sentence_ne :
    ∀ (ts : List WordEntry) (lastE : WordEntry) (st : GroupState),
      flushTest (pyStrip lastE.word) = false →
      ((processLoop (ts ++ [lastE]) st).2.2).sentence ≠ "" := by
  intro ts
  induction ts with
  | nil =>
    intro lastE st hf
    simp only [List.nil_append, processLoop, hf, Bool.false_eq_true, if_false]
    exact append_space_ne_empty _ _
  | cons t ts ih =>
    intro lastE st hf
    by_cases hft : flushTest (pyStrip t.word)
    · simp only [List.cons_append, processLoop, hft, if_true]
      exact ih lastE _ hf
    · simp only [List.cons_append, processLoop, hft, Bool.false_eq_true, if_false]
      exact ih lastE _ hf

lemma processLoop_cons (t : WordEntry) (ts : List WordEntry) (st : GroupState) :
    processLoop (t :: ts) st =
      if flushTest (pyStrip t.word) then
        ((⟨st.sentence ++ pyStrip t.word ++ " ", st.word_start, t.«end»⟩ : WordEntry) ::
            (processLoop ts
              { sentence_start := t.«end», sentence_end := t.«end»,
                word_start := t.«end», sentence := "" }).1,
          (⟨st.sentence ++ pyStrip t.word ++ " ", st.sentence_start, t.«end»⟩ : SentenceEntry) ::
            (processLoop ts
              { sentence_start := t.«end», sentence_end := t.«end»,
                word_start := t.«end», sentence := "" }).2.1,
          (processLoop ts
            { sentence_start := t.«end», sentence_end := t.«end»,
              word_start := t.«end», sentence := "" }).2.2)
      else
        ((⟨st.sentence ++ pyStrip t.word ++ " ", st.word_start, t.«end»⟩ : WordEntry) ::
            (processLoop ts
              { st with word_start := t.«end», sentence := st.sentence ++ pyStrip t.word ++ " " }).1,
          (processLoop ts
            { st with word_start := t.«end», sentence := st.sentence ++ pyStrip t.word ++ " " }).2.1,
          (processLoop ts
            { st with word_start := t.«end», sentence := st.sentence ++ pyStrip t.word ++ " " }).2.2) := by
  by_cases hf : flushTest (pyStrip t.word)
  · rw [if_pos hf]
    show (if flushTest (pyStrip t.word) then _ else _) = _
    rw [if_pos hf]
  · rw [if_neg hf]
    show (if flushTest (pyStrip t.word) then _ else _) = _
    rw [if_neg hf]

lemma processLoop_final_bounds :
    ∀ (ts : List WordEntry) (st : GroupState),
      ((processLoop ts st).2.2).sentence_start =
          (((processLoop ts st).2.1).map (fun e => e.«end»)).getLastD st.sentence_start ∧
        ((processLoop ts st).2.2).sentence_end =
          (((processLoop ts st).2.1).map (fun e => e.«end»)).getLastD st.sentence_end := by
  intro ts
  induction ts with
  | nil => intro st; exact ⟨rfl, rfl⟩
  | cons t ts ih =>
    intro st
    by_cases hf : flushTest (pyStrip t.word)
    · have ihs := ih
        { sentence_start := t.«end», sentence_end := t.«end»,
          word_start := t.«end», sentence := "" }
      rw [processLoop_cons, if_pos hf]
      dsimp only
      refine ⟨?_, ?_⟩
      · rw [List.map_cons, List.getLastD_cons]
        exact ihs.1
      · rw [List.map_cons, List.getLastD_cons]
        exact ihs.2
    · have ihs := ih
        { st with word_start := t.«end», sentence := st.sentence ++ pyStrip t.word ++ " " }
      rw [processLoop_cons, if_neg hf]
      exact ihs

lemma getLastD_concat_singleton {α : Type} (l : List α) (x d : α) :
    (l ++ [x]).getLastD d = x := by
  induction l generalizing d with
  | nil => rfl
  | cons a l ih =>
    rw [List.cons_append, List.getLastD_cons]
    exact ih a

/-- C10: when the last stripped word of a non-empty input is not a sentence
terminator, the trailing flush emits a final sentence entry whose `end` is the
`end` of the last previously completed sentence (`0` when no sentence was ever
completed) — not the last word's `end` — and whose `start` therefore equals
its `end`. -/
theorem trailing_flush_degenerate_timestamps (init : List WordEntry) (lastE : WordEntry)
    (hterm : sentence_terminator (pyStrip lastE.word) = false) :
    (process_audio_transcript_to_word_and_sentences_transcript (init ++ [lastE])).2 ≠ [] ∧
      (((process_audio_transcript_to_word_and_sentences_transcript
          (init ++ [lastE])).2).getLastD default).start =
        (((process_audio_transcript_to_word_and_sentences_transcript
          (init ++ [lastE])).2).getLastD default).«end» ∧
      (((process_audio_transcript_to_word_and_sentences_transcript
          (init ++ [lastE])).2).getLastD default).«end» =
        ((((process_audio_transcript_to_word_and_sentences_transcript
          (init ++ [lastE])).2).dropLast.map (fun e => e.«end»)).getLastD 0) := by
  have hflush : flushTest (pyStrip lastE.word) = false := by
    rw [flushTest_eq_sentence_terminator]; exact hterm
  have hne := processLoop_final_sentence_ne init lastE
    { sentence_start := 0, sentence_end := 0, word_start := 0, sentence := "" } hflush
  have hbounds := processLoop_final_bounds (init ++ [lastE])
    { sentence_start := 0, sentence_end := 0, word_start := 0, sentence := "" }
  have hss : (process_audio_transcript_to_word_and_sentences_transcript (init ++ [lastE])).2 =
      (processLoop (init ++ [lastE])
        { sentence_start := 0, sentence_end := 0, word_start := 0, sentence := "" }).2.1 ++
      [{ sentence := (processLoop (init ++ [lastE])
            { sentence_start := 0, sentence_end := 0, word_start := 0, sentence := "" }).2.2.sentence,
         start := (processLoop (init ++ [lastE])
            { sentence_start := 0, sentence_end := 0, word_start := 0, sentence := "" }).2.2.sentence_start,
         «end» := (processLoop (init ++ [lastE])
            { sentence_start := 0, sentence_end := 0, word_start := 0, sentence := "" }).2.2.sentence_end }] := by
    simp only [process_audio_transcript_to_word_and_sentences_transcript]
    rw [if_pos hne]
  rw [hss]
  refine ⟨by simp, ?_, ?_⟩
  · rw [getLastD_concat_singleton]
    show (processLoop _ _).2.2.sentence_start = (processLoop _ _).2.2.sentence_end
    rw [hbounds.1, hbounds.2]
  · rw [getLastD_concat_singleton, List.dropLast_concat]
    show (processLoop _ _).2.2.sentence_end = _
    rw [hbounds.2]

/-- Witness for C10: a single non-terminated word. -/
theorem trailing_flush_degenerate_timestamps_witness :
    (process_audio_transcript_to_word_and_sentences_transcript
        ([] ++ [(⟨"hi", 2, 3⟩ : WordEntry)])).2 ≠ [] ∧
      (((process_audio_transcript_to_word_and_sentences_transcript
          ([] ++ [(⟨"hi", 2, 3⟩ : WordEntry)])).2).getLastD default).start =
        (((process_audio_transcript_to_word_and_sentences_transcript
          ([] ++ [(⟨"hi", 2, 3⟩ : WordEntry)])).2).getLastD default).«end» ∧
      (((process_audio_transcript_to_word_and_sentences_transcript
          ([] ++ [(⟨"hi", 2, 3⟩ : WordEntry)])).2).getLastD default).«end» =
        ((((process_audio_transcript_to_word_and_sentences_transcript
          ([] ++ [(⟨"hi", 2, 3⟩ : WordEntry)])).2).dropLast.map (fun e => e.«end»)).getLastD 0) :=
  trailing_flush_degenerate_timestamps [] ⟨"hi", 2, 3⟩ (by decide)

end ShortsMaker
